import Mathlib

/-!
Verification of the SuperPicky photo-culling pipeline.

Shallow embedding of the repository's core logic:
* `RatingEngine.calculate` from `src/core/rating_engine.py`
* `CLIProcessor._calculate_rating`, `_update_stats`, `_calculate_picked_flags`,
  `_identify_raws_to_convert` and `_move_files_to_rating_folders`
  from `src/cli_processor.py`

Python floats are modelled as exact rationals (`ℚ`), Python dicts as
association lists with distinct keys, the directory state as a finite set of
paths, and human-readable reason strings as an inductive type carrying the
same numeric payloads that the format strings interpolate.
-/

/-- A filesystem path inside the processed directory: either a file at the
directory root or a file inside one rating sub-folder. -/
inductive FPath where
  | root (name : String)
  | sub (folder : String) (name : String)
deriving DecidableEq, Repr

/-- Directory state: the set of files present and the set of sub-folders
that exist. -/
structure FS where
  files : Finset FPath
  dirs : Finset String
deriving DecidableEq

/-- Python `dict` lookup (`d[k]` / `k in d`), on an association list in
insertion order. -/
def dictGet (l : List (String × α)) (k : String) : Option α :=
  match l with
  | [] => none
  | (k', v) :: rest => if k' = k then some v else dictGet rest k

/-- The human-readable reason attached to a rating, modelled as a tag
carrying the numeric values that the Python format string interpolates. -/
inductive Reason where
  | noBird
  | selectedPhoto
  | confidenceLow (c thr : ℚ)
  | brisqueHigh (b thr : ℚ)
  | nimaLow (n thr : ℚ)
  | sharpnessLow (s thr : ℚ)
  | goodPhoto
  | ordinaryPhoto
  | notDetected
  | dualQualified
  | sharpnessQualified
  | nimaQualified
  | belowUpgrade
deriving DecidableEq, Repr

/-- Result of one rating computation: `(rating, pick, reason)`. -/
structure RatingResult where
  rating : ℤ
  pick : ℤ
  reason : Reason
deriving DecidableEq, Repr

/-- `nima is not None and nima >= threshold` from the Python sources. -/
def nimaOk (nima : Option ℚ) (thr : ℚ) : Bool :=
  match nima with
  | some n => decide (thr ≤ n)
  | none => false

/-! ## RatingEngine (`src/core/rating_engine.py`) -/

/-- The six thresholds stored on a `RatingEngine` instance. -/
structure RatingEngine where
  min_confidence : ℚ
  min_sharpness : ℚ
  min_nima : ℚ
  max_brisque : ℚ
  sharpness_threshold : ℚ
  nima_threshold : ℚ
deriving DecidableEq

/-- The default thresholds of `RatingEngine.__init__`. -/
def RatingEngine.default : RatingEngine :=
  ⟨0.50, 6500, 4.3, 55, 7500, 4.8⟩

/-- Steps three to five of `RatingEngine.calculate`: the sharpness floor and
the upgrade decisions, reached after the confidence, brisque and nima
floors all passed. -/
def RatingEngine.afterNima (e : RatingEngine) (sharpness : ℚ) (nima : Option ℚ) :
    RatingResult :=
  if sharpness < e.min_sharpness then
    ⟨0, 0, .sharpnessLow sharpness e.min_sharpness⟩
  else if e.sharpness_threshold ≤ sharpness then
    if nimaOk nima e.nima_threshold then ⟨3, 0, .dualQualified⟩
    else ⟨2, 0, .sharpnessQualified⟩
  else if nimaOk nima e.nima_threshold then ⟨2, 0, .nimaQualified⟩
  else ⟨0, 0, .belowUpgrade⟩

/-- The nima floor of `RatingEngine.calculate` (`nima is not None and
nima < self.min_nima`). -/
def RatingEngine.afterBrisque (e : RatingEngine) (sharpness : ℚ) (nima : Option ℚ) :
    RatingResult :=
  match nima with
  | some n =>
      if n < e.min_nima then ⟨0, 0, .nimaLow n e.min_nima⟩
      else e.afterNima sharpness nima
  | none => e.afterNima sharpness nima

/-- `RatingEngine.calculate` from `src/core/rating_engine.py`: detection
check, then the four floor checks in source order, then the 3-star and
2-star upgrade decisions. -/
def RatingEngine.calculate (e : RatingEngine) (detected : Bool)
    (confidence sharpness : ℚ) (nima brisque : Option ℚ) : RatingResult :=
  if !detected then ⟨-1, -1, .notDetected⟩
  else if confidence < e.min_confidence then
    ⟨0, 0, .confidenceLow confidence e.min_confidence⟩
  else
    match brisque with
    | some b =>
        if e.max_brisque < b then ⟨0, 0, .brisqueHigh b e.max_brisque⟩
        else e.afterBrisque sharpness nima
    | none => e.afterBrisque sharpness nima

/-! ## CLI rating (`CLIProcessor._calculate_rating`) -/

/-- The part of the advanced configuration read by `CLIProcessor`. -/
structure CLIConfig where
  min_confidence : ℚ
  min_sharpness : ℚ
  min_nima : ℚ
  max_brisque : ℚ
  picked_top_percentage : ℚ
deriving DecidableEq

/-- The two `ui_settings` entries read by `_calculate_rating`
(`ui_settings[1]`, `ui_settings[2]`). -/
structure UISettings where
  sharpness_threshold : ℚ
  nima_threshold : ℚ
deriving DecidableEq

/-- Tail of `_calculate_rating` after the nima floor: sharpness floor, then
the 2-star-or-1-star decision. -/
def CLIProcessor.afterNima (cfg : CLIConfig) (ui : UISettings)
    (sharpness : ℚ) (nima : Option ℚ) : RatingResult :=
  if sharpness < cfg.min_sharpness then
    ⟨0, 0, .sharpnessLow sharpness cfg.min_sharpness⟩
  else if ui.sharpness_threshold ≤ sharpness ∨ nimaOk nima ui.nima_threshold then
    ⟨2, 0, .goodPhoto⟩
  else ⟨1, 0, .ordinaryPhoto⟩

/-- The nima floor of `_calculate_rating`. -/
def CLIProcessor.afterBrisque (cfg : CLIConfig) (ui : UISettings)
    (sharpness : ℚ) (nima : Option ℚ) : RatingResult :=
  match nima with
  | some n =>
      if n < cfg.min_nima then ⟨0, 0, .nimaLow n cfg.min_nima⟩
      else CLIProcessor.afterNima cfg ui sharpness nima
  | none => CLIProcessor.afterNima cfg ui sharpness nima

/-- `CLIProcessor._calculate_rating`: detection check, `selected` shortcut,
the four floor checks in source order, then the 2-star-or-1-star
decision. -/
def CLIProcessor.calculate_rating (cfg : CLIConfig) (ui : UISettings)
    (detected selected : Bool) (confidence sharpness : ℚ)
    (nima brisque : Option ℚ) : RatingResult :=
  if !detected then ⟨-1, -1, .noBird⟩
  else if selected then ⟨3, 0, .selectedPhoto⟩
  else if confidence < cfg.min_confidence then
    ⟨0, 0, .confidenceLow confidence cfg.min_confidence⟩
  else
    match brisque with
    | some b =>
        if cfg.max_brisque < b then ⟨0, 0, .brisqueHigh b cfg.max_brisque⟩
        else CLIProcessor.afterBrisque cfg ui sharpness nima
    | none => CLIProcessor.afterBrisque cfg ui sharpness nima

/-! ## Run statistics (`CLIProcessor._update_stats`) -/

/-- The counting fields of the `CLIProcessor.stats` dictionary. -/
structure Stats where
  total : ℕ
  star_3 : ℕ
  picked : ℕ
  star_2 : ℕ
  star_1 : ℕ
  star_0 : ℕ
  no_bird : ℕ
deriving DecidableEq, Repr

/-- The initial statistics set up in `CLIProcessor.__init__`. -/
def Stats.init : Stats := ⟨0, 0, 0, 0, 0, 0, 0⟩

/-- `CLIProcessor._update_stats`: increment `total` and the bucket selected
by the rating's value. -/
def Stats.update (s : Stats) (rating : ℤ) : Stats :=
  let s := { s with total := s.total + 1 }
  if rating = 3 then { s with star_3 := s.star_3 + 1 }
  else if rating = 2 then { s with star_2 := s.star_2 + 1 }
  else if rating = 1 then { s with star_1 := s.star_1 + 1 }
  else if rating = 0 then { s with star_0 := s.star_0 + 1 }
  else { s with no_bird := s.no_bird + 1 }

/-- The per-rating bucket of a `Stats` value, for ratings 1, 2 and 3. -/
def Stats.starCount (s : Stats) (r : ℤ) : ℕ :=
  if r = 3 then s.star_3 else if r = 2 then s.star_2 else s.star_1

/-! ## Picked selection (`CLIProcessor._calculate_picked_flags`) -/

/-- One entry of the `star_3_photos` list: file path, nima and sharpness. -/
structure Cand where
  file : String
  nima : ℚ
  sharpness : ℚ
deriving DecidableEq, Repr

/-- Insert one element into a list already sorted descending by `key`,
placing it after every element of key at least as large.  This is the
insertion step of a stable descending sort. -/
def insertDescBy (key : Cand → ℚ) (a : Cand) : List Cand → List Cand
  | [] => [a]
  | b :: bs =>
      if key b ≤ key a then a :: b :: bs
      else b :: insertDescBy key a bs

/-- Stable descending sort by `key`: the behaviour of Python's
`sorted(xs, key=key, reverse=True)` (equal keys keep input order). -/
def sortDescBy (key : Cand → ℚ) : List Cand → List Cand
  | [] => []
  | a :: as => insertDescBy key a (sortDescBy key as)

/-- `top_count = max(1, int(len(star_3_photos) * top_percent))` from
`_calculate_picked_flags` (`int` truncates; the argument is nonnegative for
nonnegative percentages). -/
def topCount (n : ℕ) (pct : ℚ) : ℕ :=
  max 1 (Int.toNat ⌊(n : ℚ) * (pct / 100)⌋)

/-- `CLIProcessor._calculate_picked_flags`, as the set of picked files: an
empty cohort is skipped; otherwise the intersection of the first
`top_count` files of the descending-nima ranking and of the
descending-sharpness ranking. -/
def pickedFiles (photos : List Cand) (pct : ℚ) : Finset String :=
  if photos.isEmpty then ∅
  else
    let tc := topCount photos.length pct
    let nimaTop := (((sortDescBy (·.nima) photos).take tc).map (·.file)).toFinset
    let sharpTop := (((sortDescBy (·.sharpness) photos).take tc).map (·.file)).toFinset
    nimaTop ∩ sharpTop

/-! ## RAW/preview pairing (`CLIProcessor._identify_raws_to_convert`) -/

/-- `jpg_dict.pop(key)`: remove the (first) entry with the given key. -/
def popKey (l : List (String × String)) (k : String) : List (String × String) :=
  l.eraseP (fun e => decide (e.1 = k))

/-- `CLIProcessor._identify_raws_to_convert`: walk the raw map in order;
a raw prefix that is also a preview prefix consumes (pops) that preview
entry, every other raw prefix becomes a conversion task.  Returns the task
list together with the final state of the preview map. -/
def identifyRawsToConvert (dir : String) :
    List (String × String) → List (String × String) →
    List (String × String) × List (String × String)
  | [], jpg => ([], jpg)
  | (k, v) :: rest, jpg =>
      if (dictGet jpg k).isSome then
        identifyRawsToConvert dir rest (popKey jpg k)
      else
        let r := identifyRawsToConvert dir rest jpg
        ((k, dir ++ "/" ++ k ++ v) :: r.1, r.2)

/-! ## File organization (`CLIProcessor._move_files_to_rating_folders`) -/

/-- One entry of the `files_to_move` list / the manifest `files` array. -/
structure MoveRec where
  filename : String
  rating : ℤ
  folder : String
deriving DecidableEq, Repr

/-- The `RATING_FOLDER_NAMES` table (defined for the ratings 1, 2, 3). -/
def ratingFolderName (r : ℤ) : String :=
  if r = 3 then "3星_优选"
  else if r = 2 then "2星_良好"
  else "1星_普通"

/-- The fixed manifest filename. -/
def manifestName : String := "_superpicky_manifest.json"

/-- The manifest file's path at the directory root. -/
def manifestPath : FPath := .root manifestName

/-- The manifest document (`created` is a wall-clock timestamp and is not
modelled). -/
structure Manifest where
  version : String
  app_version : String
  original_dir : String
  files : List MoveRec
  total_moved : ℕ
deriving DecidableEq, Repr

/-- Result of one invocation of the move step: the new directory state, the
`moved_count`, and the manifest document if one was written. -/
structure MoveResult where
  fs : FS
  movedCount : ℕ
  manifest : Option Manifest
deriving DecidableEq

/-- The source path of a move record (at the directory root). -/
def srcPath (r : MoveRec) : FPath := .root r.filename

/-- The destination path of a move record (inside its rating folder). -/
def dstPath (r : MoveRec) : FPath := .sub r.folder r.filename

/-- The `files_to_move` selection: ratings in `[1, 2, 3]` whose prefix is in
`raw_dict` and whose raw file exists on disk. -/
def filesToMove (fs : FS) (ratings : List (String × ℤ))
    (raw : List (String × String)) : List MoveRec :=
  ratings.filterMap fun pr =>
    if pr.2 = (1 : ℤ) ∨ pr.2 = (2 : ℤ) ∨ pr.2 = (3 : ℤ) then
      match dictGet raw pr.1 with
      | some ext =>
          if FPath.root (pr.1 ++ ext) ∈ fs.files then
            some ⟨pr.1 ++ ext, pr.2, ratingFolderName pr.2⟩
          else none
      | none => none
    else none

/-- One iteration of the move loop: skip when the destination already
exists, skip (a caught exception) when the source is gone, otherwise move
the file and count it. -/
def applyMove (st : FS × ℕ) (r : MoveRec) : FS × ℕ :=
  if dstPath r ∈ st.1.files then st
  else if srcPath r ∈ st.1.files then
    (⟨insert (dstPath r) (st.1.files.erase (srcPath r)), st.1.dirs⟩, st.2 + 1)
  else st

/-- `CLIProcessor._move_files_to_rating_folders`: select `files_to_move`;
return untouched when empty; otherwise create the folders in use, run the
move loop, and write the manifest at the directory root. -/
def moveStep (dir : String) (fs : FS) (ratings : List (String × ℤ))
    (raw : List (String × String)) : MoveResult :=
  let ftm := filesToMove fs ratings raw
  if ftm.isEmpty then ⟨fs, 0, none⟩
  else
    let fs1 : FS := ⟨fs.files, fs.dirs ∪ (ftm.map (·.folder)).toFinset⟩
    let st := ftm.foldl applyMove (fs1, 0)
    ⟨⟨insert manifestPath st.1.files, st.1.dirs⟩, st.2,
      some ⟨"1.0", "CLI-0.1.0", dir, ftm, st.2⟩⟩

/-! ## The per-photo loop (`CLIProcessor._process_images`) -/

/-- The detector output for one successfully processed file, together with
the file's prefix. -/
structure PhotoObs where
  pfx : String
  detected : Bool
  selected : Bool
  confidence : ℚ
  sharpness : ℚ
  nima : Option ℚ
  brisque : Option ℚ
deriving DecidableEq, Repr

/-- The rating the CLI loop computes for one photo. -/
def photoRating (cfg : CLIConfig) (ui : UISettings) (ph : PhotoObs) : ℤ :=
  (CLIProcessor.calculate_rating cfg ui ph.detected ph.selected
    ph.confidence ph.sharpness ph.nima ph.brisque).rating

/-- The statistics accumulated over a run (`_update_stats` applied to every
successfully processed photo, in order). -/
def runStats (cfg : CLIConfig) (ui : UISettings) (photos : List PhotoObs) : Stats :=
  photos.foldl (fun s ph => s.update (photoRating cfg ui ph)) Stats.init

/-- Whether a photo's raw counterpart is recorded in `raw_dict` and present
on disk. -/
def rawOnDisk (fs : FS) (raw : List (String × String)) (ph : PhotoObs) : Bool :=
  match dictGet raw ph.pfx with
  | some ext => decide (FPath.root (ph.pfx ++ ext) ∈ fs.files)
  | none => false

/-- The `file_ratings` map built by `_process_images`: a photo is recorded
(with its rating) exactly when its raw counterpart is in `raw_dict` and on
disk. -/
def fileRatings (cfg : CLIConfig) (ui : UISettings) (fs : FS)
    (raw : List (String × String)) (photos : List PhotoObs) :
    List (String × ℤ) :=
  photos.filterMap fun ph =>
    if rawOnDisk fs raw ph then some (ph.pfx, photoRating cfg ui ph) else none

/-- The floor check predicate of the spec sentence on floor domination: at
least one of the four floor checks fails. -/
def floorFails (minc maxb minn mins : ℚ) (confidence sharpness : ℚ)
    (nima brisque : Option ℚ) : Prop :=
  confidence < minc ∨ (∃ b, brisque = some b ∧ maxb < b) ∨
    (∃ n, nima = some n ∧ n < minn) ∨ sharpness < mins

/-! ## Helper lemmas about the rating functions -/

/-- The upgrade stage of the engine only returns ratings 0, 2 or 3, always
with pick 0. -/
lemma RatingEngine.afterNima_spec (e : RatingEngine) (s : ℚ) (n : Option ℚ) :
    ((e.afterNima s n).rating = 0 ∨ (e.afterNima s n).rating = 2 ∨
      (e.afterNima s n).rating = 3) ∧ (e.afterNima s n).pick = 0 := by
  unfold RatingEngine.afterNima
  split_ifs <;> simp

/-- The nima-floor stage of the engine only returns ratings 0, 2 or 3,
always with pick 0. -/
lemma RatingEngine.afterBrisque_spec (e : RatingEngine) (s : ℚ) (n : Option ℚ) :
    ((e.afterBrisque s n).rating = 0 ∨ (e.afterBrisque s n).rating = 2 ∨
      (e.afterBrisque s n).rating = 3) ∧ (e.afterBrisque s n).pick = 0 := by
  rcases n with _ | nv
  · simp only [RatingEngine.afterBrisque]
    exact e.afterNima_spec s none
  · simp only [RatingEngine.afterBrisque]
    split_ifs with h
    · simp
    · exact e.afterNima_spec s (some nv)

/-- A floor failure forces rating 0 in `RatingEngine.calculate` (with the
photo detected). -/
lemma engine_floor_zero (e : RatingEngine) (c s : ℚ) (n b : Option ℚ)
    (h : floorFails e.min_confidence e.max_brisque e.min_nima e.min_sharpness
      c s n b) :
    (e.calculate true c s n b).rating = 0 := by
  rcases n with _ | nv <;> rcases b with _ | bv <;>
    simp only [RatingEngine.calculate, RatingEngine.afterBrisque,
      RatingEngine.afterNima, Bool.not_true, Bool.false_eq_true, if_false] <;>
    split_ifs <;>
    first
      | rfl
      | (exfalso
         rcases h with h | ⟨x, hx, hxx⟩ | ⟨x, hx, hxx⟩ | h <;>
           simp_all <;> linarith)

/-- A floor failure forces rating 0 in `CLIProcessor._calculate_rating`
when the photo is detected and not externally selected. -/
lemma cli_floor_zero (cfg : CLIConfig) (ui : UISettings)
    (c s : ℚ) (n b : Option ℚ)
    (h : floorFails cfg.min_confidence cfg.max_brisque cfg.min_nima
      cfg.min_sharpness c s n b) :
    (CLIProcessor.calculate_rating cfg ui true false c s n b).rating = 0 := by
  rcases n with _ | nv <;> rcases b with _ | bv <;>
    simp only [CLIProcessor.calculate_rating, CLIProcessor.afterBrisque,
      CLIProcessor.afterNima, Bool.not_true, Bool.false_eq_true, if_false] <;>
    split_ifs <;>
    first
      | rfl
      | (exfalso
         rcases h with h | ⟨x, hx, hxx⟩ | ⟨x, hx, hxx⟩ | h <;>
           simp_all <;> linarith)

/-! ## Claim theorems: the rating stage -/

/-- Claim C2: `RatingEngine.calculate` is total (it is a Lean function, so
identical inputs give identical results by construction); its rating is
always one of -1, 0, 2, 3; the not-detected case returns rating -1 and
pick -1; and every detected case returns pick 0. -/
theorem ratingEngine_total_and_pick (e : RatingEngine) (d : Bool)
    (c s : ℚ) (n b : Option ℚ) :
    ((e.calculate d c s n b).rating = -1 ∨ (e.calculate d c s n b).rating = 0 ∨
      (e.calculate d c s n b).rating = 2 ∨ (e.calculate d c s n b).rating = 3) ∧
    ((e.calculate d c s n b).rating = -1 ↔ d = false) ∧
    (d = false → (e.calculate d c s n b).pick = -1) ∧
    (d = true → (e.calculate d c s n b).pick = 0) := by
  rcases d with _ | _
  · simp [RatingEngine.calculate]
  · have key : ((e.calculate true c s n b).rating = 0 ∨
        (e.calculate true c s n b).rating = 2 ∨
        (e.calculate true c s n b).rating = 3) ∧
        (e.calculate true c s n b).pick = 0 := by
      rcases b with _ | bv <;>
        simp only [RatingEngine.calculate, Bool.not_true, Bool.false_eq_true,
          if_false]
      · split_ifs with h1
        · simp
        · exact e.afterBrisque_spec s n
      · split_ifs with h1 h2
        · simp
        · simp
        · exact e.afterBrisque_spec s n
    refine ⟨?_, ?_, by simp, fun _ => key.2⟩
    · rcases key.1 with h | h | h <;> simp [h]
    · constructor
      · intro h
        rcases key.1 with h' | h' | h' <;> rw [h'] at h <;> exact absurd h (by decide)
      · intro h
        exact absurd h (by decide)

/-- Witness for C2 at a concrete input: a detected photo gets pick 0, and an
undetected photo gets rating -1 and pick -1. -/
theorem ratingEngine_total_and_pick_witness :
    (RatingEngine.calculate RatingEngine.default true 1 8000 none none).pick = 0 ∧
    (RatingEngine.calculate RatingEngine.default false 1 8000 none none).rating = -1 := by
  constructor
  · exact (ratingEngine_total_and_pick RatingEngine.default true 1 8000 none none).2.2.2 rfl
  · exact ((ratingEngine_total_and_pick RatingEngine.default false 1 8000 none none).2.1).mpr rfl

/-- Claim C9: in `CLIProcessor._calculate_rating`, a detected photo carrying
the external `selected` signal is rated 3 with pick 0 regardless of every
score and threshold. -/
theorem cli_selected_always_three (cfg : CLIConfig) (ui : UISettings)
    (c s : ℚ) (n b : Option ℚ) :
    CLIProcessor.calculate_rating cfg ui true true c s n b =
      ⟨3, 0, .selectedPhoto⟩ := by
  rfl

/-- Counterexample for C1 as frozen: in the CLI rating function the
`selected` input flag defeats a failing confidence floor — the input fails
the floor (0.3 < 0.5) yet is rated 3, not 0. -/
theorem cli_floor_fail_selected_rated_three :
    (CLIProcessor.calculate_rating ⟨0.5, 6500, 4.3, 55, 25⟩ ⟨7500, 4.8⟩
      true true 0.3 8000 (some 5) (some 20)).rating = 3 ∧
    ((0.3 : ℚ) < (0.5 : ℚ)) := by
  constructor
  · rfl
  · norm_num

/-- Claim C1 (amended): a detected input failing at least one floor check is
rated 0 — unconditionally in `RatingEngine.calculate`, and in
`CLIProcessor._calculate_rating` provided the external `selected` flag is
false (a selected photo bypasses every floor check, see C9). -/
theorem floors_dominate (e : RatingEngine) (cfg : CLIConfig) (ui : UISettings)
    (c s : ℚ) (n b : Option ℚ)
    (he : floorFails e.min_confidence e.max_brisque e.min_nima
      e.min_sharpness c s n b)
    (hc : floorFails cfg.min_confidence cfg.max_brisque cfg.min_nima
      cfg.min_sharpness c s n b) :
    (e.calculate true c s n b).rating = 0 ∧
    (CLIProcessor.calculate_rating cfg ui true false c s n b).rating = 0 :=
  ⟨engine_floor_zero e c s n b he, cli_floor_zero cfg ui c s n b hc⟩

/-- Witness for C1: with the default thresholds, confidence 0.3 fails the
0.5 floor and both rating functions return 0. -/
theorem floors_dominate_witness :
    (RatingEngine.calculate RatingEngine.default true 0.3 8000
      (some 5) (some 20)).rating = 0 ∧
    (CLIProcessor.calculate_rating ⟨0.5, 6500, 4.3, 55, 25⟩ ⟨7500, 4.8⟩
      true false 0.3 8000 (some 5) (some 20)).rating = 0 :=
  floors_dominate RatingEngine.default ⟨0.5, 6500, 4.3, 55, 25⟩ ⟨7500, 4.8⟩
    0.3 8000 (some 5) (some 20)
    (Or.inl (by norm_num [RatingEngine.default]))
    (Or.inl (by norm_num))

/-- Counterexample for C5 as frozen: on the spec's second worked example
(nima 4.0 against the 4.3 floor) the engine returns rating 0 with the
nima-floor reason, not rating 2. -/
theorem example_nima_four_rating_zero :
    RatingEngine.calculate RatingEngine.default true 0.80 8000
      (some 4.0) (some 20) = ⟨0, 0, .nimaLow 4.0 4.3⟩ ∧
    (RatingEngine.calculate RatingEngine.default true 0.80 8000
      (some 4.0) (some 20)).rating ≠ 2 := by
  constructor
  · norm_num [RatingEngine.calculate, RatingEngine.afterBrisque,
      RatingEngine.afterNima, nimaOk, RatingEngine.default]
  · intro h
    rw [show RatingEngine.calculate RatingEngine.default true 0.80 8000
        (some 4.0) (some 20) = ⟨0, 0, .nimaLow 4.0 4.3⟩ by
      norm_num [RatingEngine.calculate, RatingEngine.afterBrisque,
        RatingEngine.afterNima, nimaOk, RatingEngine.default]] at h
    exact absurd h (by decide)

/-- Claim C5 (amended): the spec's worked examples against the engine with
floors (0.50, 6500, 4.3, 55) and upgrades (7500, 4.8): the dual-qualified
example rates 3; nima 4.0 fails the 4.3 floor and rates 0 (reason carries
the nima value); with nima 4.5 instead — above the floor, below the 4.8
upgrade — the photo rates 2 with the sharpness-qualified reason; and
confidence 0.30 against the 0.50 floor rates 0 with a reason carrying the
confidence value. -/
theorem ratingEngine_worked_examples :
    RatingEngine.calculate RatingEngine.default true 0.80 8000
      (some 5.0) (some 20) = ⟨3, 0, .dualQualified⟩ ∧
    (RatingEngine.calculate RatingEngine.default true 0.80 8000
      (some 4.0) (some 20)).rating = 0 ∧
    RatingEngine.calculate RatingEngine.default true 0.80 8000
      (some 4.5) (some 20) = ⟨2, 0, .sharpnessQualified⟩ ∧
    RatingEngine.calculate RatingEngine.default true 0.30 8000
      (some 5.0) (some 20) = ⟨0, 0, .confidenceLow 0.30 0.50⟩ := by
  refine ⟨?_, ?_, ?_, ?_⟩ <;>
    norm_num [RatingEngine.calculate, RatingEngine.afterBrisque,
      RatingEngine.afterNima, nimaOk, RatingEngine.default]

/-! ## Claim theorems: the picked selector -/

/-- Claim C3: the picked selection is total; its `top_count` is
`max(1, floor(N * P / 100))`; the result — the intersection of the two
top-`top_count` prefixes — has at most `top_count` elements, and an empty
cohort yields an empty result. -/
theorem pickedFiles_spec (photos : List Cand) (pct : ℚ) :
    topCount photos.length pct =
      max 1 (Int.toNat ⌊(photos.length : ℚ) * pct / 100⌋) ∧
    (pickedFiles photos pct).card ≤ topCount photos.length pct ∧
    (photos = [] → pickedFiles photos pct = ∅) := by
  refine ⟨by rw [topCount, mul_div_assoc], ?_, ?_⟩
  · unfold pickedFiles
    split_ifs with h
    · simp [topCount]
    · refine le_trans (Finset.card_le_card Finset.inter_subset_left) ?_
      refine le_trans (List.toFinset_card_le _) ?_
      rw [List.length_map]
      exact List.length_take_le _ _
  · intro h
    simp [pickedFiles, h]

/-- Witness for C3: the spec's example — a cohort of 10 at 25 percent gives
`top_count = 2`, and the empty cohort yields the empty picked set. -/
theorem pickedFiles_spec_witness :
    topCount 10 25 = 2 ∧ pickedFiles [] 25 = ∅ := by
  constructor
  · norm_num [topCount]
    rfl
  · exact (pickedFiles_spec [] 25).2.2 rfl

/-! ## Lemmas about the stable descending sort -/

/-- Inserting permutes: the insertion step produces a permutation of
consing. -/
lemma insertDescBy_perm (key : Cand → ℚ) (a : Cand) (l : List Cand) :
    (insertDescBy key a l).Perm (a :: l) := by
  induction l with
  | nil => exact List.Perm.refl _
  | cons b bs ih =>
      unfold insertDescBy
      split_ifs with h
      · exact List.Perm.refl _
      · exact (ih.cons b).trans (List.Perm.swap a b bs)

/-- The sort permutes its input. -/
lemma sortDescBy_perm (key : Cand → ℚ) (l : List Cand) :
    (sortDescBy key l).Perm l := by
  induction l with
  | nil => exact List.Perm.refl _
  | cons a as ih =>
      exact (insertDescBy_perm key a (sortDescBy key as)).trans (ih.cons a)

/-- Inserting into a descending-sorted list keeps it descending-sorted. -/
lemma insertDescBy_sorted (key : Cand → ℚ) (a : Cand) (l : List Cand)
    (h : l.Pairwise (fun x y => key y ≤ key x)) :
    (insertDescBy key a l).Pairwise (fun x y => key y ≤ key x) := by
  induction l with
  | nil => simp [insertDescBy]
  | cons b bs ih =>
      unfold insertDescBy
      split_ifs with hba
      · refine List.Pairwise.cons ?_ h
        intro x hx
        rw [List.mem_cons] at hx
        rcases hx with rfl | hx
        · exact hba
        · exact le_trans (List.rel_of_pairwise_cons h hx) hba
      · refine List.Pairwise.cons ?_ (ih h.tail)
        intro x hx
        have hx' := (insertDescBy_perm key a bs).mem_iff.mp hx
        rw [List.mem_cons] at hx'
        rcases hx' with rfl | hx'
        · exact le_of_lt (lt_of_not_le hba)
        · exact List.rel_of_pairwise_cons h hx'

/-- The sort output is descending in the key. -/
lemma sortDescBy_sorted (key : Cand → ℚ) (l : List Cand) :
    (sortDescBy key l).Pairwise (fun x y => key y ≤ key x) := by
  induction l with
  | nil => simp [sortDescBy]
  | cons a as ih => exact insertDescBy_sorted key a _ ih

/-- With pairwise-distinct keys, the sort output is strictly descending. -/
lemma sortDescBy_strict (key : Cand → ℚ) (l : List Cand)
    (hk : (l.map key).Nodup) :
    (sortDescBy key l).Pairwise (fun x y => key y < key x) := by
  have hs := sortDescBy_sorted key l
  have hperm : ((sortDescBy key l).map key).Perm (l.map key) :=
    (sortDescBy_perm key l).map key
  have hnd : ((sortDescBy key l).map key).Nodup := hperm.nodup_iff.mpr hk
  have hne : (sortDescBy key l).Pairwise (fun x y => key x ≠ key y) :=
    List.pairwise_map.mp hnd
  exact (hs.and hne).imp fun hab => lt_of_le_of_ne hab.1 hab.2.symm

/-- With pairwise-distinct keys, sorting is invariant under permutation of
the input: any two orderings of the same cohort sort to the same list. -/
lemma sortDescBy_eq_of_perm (key : Cand → ℚ) {l₁ l₂ : List Cand}
    (hp : l₁.Perm l₂) (hk : (l₁.map key).Nodup) :
    sortDescBy key l₁ = sortDescBy key l₂ := by
  have hk₂ : (l₂.map key).Nodup := (hp.map key).nodup_iff.mp hk
  have hperm : (sortDescBy key l₁).Perm (sortDescBy key l₂) :=
    ((sortDescBy_perm key l₁).trans hp).trans (sortDescBy_perm key l₂).symm
  haveI : IsAntisymm Cand (fun x y => key y < key x) :=
    ⟨fun _ _ hab hba => absurd (hba.trans hab) (lt_irrefl _)⟩
  exact List.eq_of_perm_of_sorted hperm
    (sortDescBy_strict key l₁ hk) (sortDescBy_strict key l₂ hk₂)

/-! ## Claim theorems: determinism of the picked selector -/

/-- Counterexample for C6 as frozen: the code's rankings use Python's
stable sort with no filename tie-break, so the picked set depends on the
cohort's list order when scores tie — the same two-photo cohort (equal
nima, distinct sharpness) yields an empty picked set in one order and a
singleton in the other. -/
theorem pickedFiles_order_dependent :
    (([⟨"p1", 5, 10⟩, ⟨"p2", 5, 20⟩] : List Cand)).Perm
      [⟨"p2", 5, 20⟩, ⟨"p1", 5, 10⟩] ∧
    pickedFiles [⟨"p1", 5, 10⟩, ⟨"p2", 5, 20⟩] 50 = ∅ ∧
    pickedFiles [⟨"p2", 5, 20⟩, ⟨"p1", 5, 10⟩] 50 = {"p2"} ∧
    pickedFiles [⟨"p1", 5, 10⟩, ⟨"p2", 5, 20⟩] 50 ≠
      pickedFiles [⟨"p2", 5, 20⟩, ⟨"p1", 5, 10⟩] 50 := by
  have h1 : pickedFiles [⟨"p1", 5, 10⟩, ⟨"p2", 5, 20⟩] 50 = ∅ := by
    norm_num [pickedFiles, topCount, sortDescBy, insertDescBy]
    decide
  have h2 : pickedFiles [⟨"p2", 5, 20⟩, ⟨"p1", 5, 10⟩] 50 = {"p2"} := by
    norm_num [pickedFiles, topCount, sortDescBy, insertDescBy]
  refine ⟨List.Perm.swap _ _ _, h1, h2, ?_⟩
  rw [h1, h2]
  decide

/-- Claim C6 (amended): the picked selection is a deterministic function of
the cohort list; the rankings are stable sorts whose tie-break is cohort
position, not filename, so runs over the identical cohort list agree, and
whenever the nima scores are pairwise distinct and the sharpness scores are
pairwise distinct the picked set is independent of the cohort's order.
(With tied scores, differently ordered but set-equal cohorts may differ —
see the counterexample.) -/
theorem pickedFiles_deterministic (l₁ l₂ : List Cand) (pct : ℚ)
    (hp : l₁.Perm l₂)
    (hn : (l₁.map (·.nima)).Nodup) (hs : (l₁.map (·.sharpness)).Nodup) :
    pickedFiles l₁ pct = pickedFiles l₂ pct := by
  have hie : l₁.isEmpty = l₂.isEmpty := by
    rcases l₁ with _ | ⟨a, as⟩
    · rw [← hp.nil_eq]
    · rcases l₂ with _ | ⟨b, bs⟩
      · exact absurd hp.symm.nil_eq (by simp)
      · rfl
  unfold pickedFiles
  rw [hie, sortDescBy_eq_of_perm _ hp hn, sortDescBy_eq_of_perm _ hp hs,
    hp.length_eq]

/-- Witness for C6: a two-photo cohort with distinct nima and distinct
sharpness scores is picked identically in either order. -/
theorem pickedFiles_deterministic_witness :
    pickedFiles [⟨"a", 1, 2⟩, ⟨"b", 3, 4⟩] 50 =
      pickedFiles [⟨"b", 3, 4⟩, ⟨"a", 1, 2⟩] 50 :=
  pickedFiles_deterministic _ _ 50 (List.Perm.swap _ _ _)
    (by simp) (by simp)


/-! ## Lemmas about dict lookup and pop -/

/-- A key looks up successfully exactly when it occurs among the keys. -/
lemma dictGet_isSome_iff {α : Type} (l : List (String × α)) (k : String) :
    (dictGet l k).isSome ↔ k ∈ l.map Prod.fst := by
  induction l with
  | nil => simp [dictGet]
  | cons e rest ih =>
      rcases e with ⟨k', v⟩
      by_cases h : k' = k
      · subst h
        simp [dictGet]
      · simp [dictGet, h, ih, Ne.symm h]

/-- Popping one key leaves lookups of every other key unchanged. -/
lemma dictGet_popKey_ne (l : List (String × String)) (k x : String)
    (hxk : x ≠ k) : dictGet (popKey l k) x = dictGet l x := by
  induction l with
  | nil => rfl
  | cons e rest ih =>
      rcases e with ⟨k', v⟩
      by_cases h : k' = k
      · subst h
        have hpop : popKey ((k', v) :: rest) k' = rest := by
          simp [popKey, List.eraseP_cons]
        rw [hpop]
        simp only [dictGet]
        rw [if_neg (fun hh => hxk hh.symm)]
      · have hpop : popKey ((k', v) :: rest) k = (k', v) :: popKey rest k := by
          simp [popKey, List.eraseP_cons, h]
        rw [hpop]
        simp only [dictGet]
        by_cases hx : k' = x
        · simp [hx]
        · simp [hx, ih]

/-- With distinct keys, popping a key equals filtering that key out. -/
lemma popKey_eq_filter (l : List (String × String)) (k : String)
    (hnd : (l.map Prod.fst).Nodup) :
    popKey l k = l.filter (fun e => decide (e.1 ≠ k)) := by
  induction l with
  | nil => rfl
  | cons e rest ih =>
      rcases e with ⟨k', v⟩
      simp only [List.map_cons, List.nodup_cons] at hnd
      rw [List.filter_cons]
      by_cases h : k' = k
      · subst h
        rw [if_neg (by simp)]
        have hpop : popKey ((k', v) :: rest) k' = rest := by
          simp [popKey, List.eraseP_cons]
        rw [hpop]
        symm
        refine List.filter_eq_self.mpr fun e he => ?_
        simp only [decide_eq_true_eq]
        intro hk
        exact hnd.1 (hk ▸ List.mem_map_of_mem Prod.fst he)
      · rw [if_pos (by simp [h])]
        have hpop : popKey ((k', v) :: rest) k = (k', v) :: popKey rest k := by
          simp [popKey, List.eraseP_cons, h]
        rw [hpop, ih hnd.2]

/-- The conversion-task prefixes all come from the raw map. -/
lemma identifyRaws_tasks_sub (dir : String) (raw jpg : List (String × String)) :
    ∀ x ∈ (identifyRawsToConvert dir raw jpg).1.map Prod.fst,
      x ∈ raw.map Prod.fst := by
  induction raw generalizing jpg with
  | nil => simp [identifyRawsToConvert]
  | cons e rest ih =>
      rcases e with ⟨k, v⟩
      intro x hx
      by_cases hmem : (dictGet jpg k).isSome
      · have hstep : identifyRawsToConvert dir ((k, v) :: rest) jpg =
            identifyRawsToConvert dir rest (popKey jpg k) := by
          simp [identifyRawsToConvert, hmem]
        rw [hstep] at hx
        exact List.mem_cons_of_mem k (ih (popKey jpg k) x hx)
      · have hstep : identifyRawsToConvert dir ((k, v) :: rest) jpg =
            ((k, dir ++ "/" ++ k ++ v) ::
              (identifyRawsToConvert dir rest jpg).1,
              (identifyRawsToConvert dir rest jpg).2) := by
          simp [identifyRawsToConvert, hmem]
        rw [hstep] at hx
        simp only [List.map_cons, List.mem_cons] at hx
        rcases hx with rfl | hx
        · exact List.mem_cons_self _ _
        · exact List.mem_cons_of_mem k (ih jpg x hx)

/-! ## Claim theorems: RAW/preview pairing -/

/-- Claim C7: with the two scan maps (whose keys are distinct, as Python
dict keys are), the pairing pass returns as conversion tasks exactly the
raw prefixes absent from the preview map (in raw order, with their built
paths), removes from the preview map exactly the entries whose prefix is
also a raw prefix — each consumed exactly once — and no prefix present in
both maps ever becomes a conversion task. -/
theorem identifyRaws_pairing (dir : String) (raw jpg : List (String × String))
    (hraw : (raw.map Prod.fst).Nodup) (hjpg : (jpg.map Prod.fst).Nodup) :
    (identifyRawsToConvert dir raw jpg).1 =
      (raw.filter (fun e => (dictGet jpg e.1).isNone)).map
        (fun e => (e.1, dir ++ "/" ++ e.1 ++ e.2)) ∧
    (identifyRawsToConvert dir raw jpg).2 =
      jpg.filter (fun e => (dictGet raw e.1).isNone) ∧
    ∀ k, (dictGet jpg k).isSome →
      k ∉ ((identifyRawsToConvert dir raw jpg).1.map Prod.fst) := by
  induction raw generalizing jpg with
  | nil =>
      refine ⟨rfl, ?_, by simp [identifyRawsToConvert]⟩
      simp [identifyRawsToConvert, dictGet]
  | cons e rest ih =>
      rcases e with ⟨k, v⟩
      simp only [List.map_cons, List.nodup_cons] at hraw
      by_cases hmem : (dictGet jpg k).isSome
      · obtain ⟨w, hw⟩ := Option.isSome_iff_exists.mp hmem
        have hstep : identifyRawsToConvert dir ((k, v) :: rest) jpg =
            identifyRawsToConvert dir rest (popKey jpg k) := by
          simp [identifyRawsToConvert, hmem]
        have hnd' : ((popKey jpg k).map Prod.fst).Nodup :=
          List.Nodup.sublist ((List.eraseP_sublist _).map Prod.fst) hjpg
        obtain ⟨ih1, ih2, ih3⟩ := ih (popKey jpg k) hraw.2 hnd'
        refine ⟨?_, ?_, ?_⟩
        · rw [hstep, ih1, List.filter_cons, if_neg (by simp [hw])]
          congr 1
          refine List.filter_congr fun e he => ?_
          have hek : e.1 ≠ k := fun hh =>
            hraw.1 (hh ▸ List.mem_map_of_mem Prod.fst he)
          rw [dictGet_popKey_ne jpg k e.1 hek]
        · rw [hstep, ih2, popKey_eq_filter jpg k hjpg, List.filter_filter]
          refine List.filter_congr fun e he => ?_
          simp only [dictGet]
          by_cases hek : e.1 = k
          · simp [hek]
          · simp [hek, Ne.symm hek]
        · intro x hx
          rw [hstep]
          by_cases hxk : x = k
          · subst hxk
            intro hcontra
            exact hraw.1 (identifyRaws_tasks_sub dir rest (popKey jpg x) x hcontra)
          · refine ih3 x ?_
            rw [dictGet_popKey_ne jpg k x hxk]
            exact hx
      · have hstep : identifyRawsToConvert dir ((k, v) :: rest) jpg =
            ((k, dir ++ "/" ++ k ++ v) ::
              (identifyRawsToConvert dir rest jpg).1,
              (identifyRawsToConvert dir rest jpg).2) := by
          simp [identifyRawsToConvert, hmem]
        have hnone : dictGet jpg k = none := by
          rcases ho : dictGet jpg k with _ | w
          · rfl
          · exact absurd (by simp [ho] : (dictGet jpg k).isSome = true) hmem
        obtain ⟨ih1, ih2, ih3⟩ := ih jpg hraw.2 hjpg
        refine ⟨?_, ?_, ?_⟩
        · rw [hstep, List.filter_cons, if_pos (by simp [hnone])]
          simp only [List.map_cons]
          rw [ih1]
        · rw [hstep]
          simp only
          rw [ih2]
          refine List.filter_congr fun e he => ?_
          have hek : e.1 ≠ k := by
            intro hh
            apply hmem
            rw [dictGet_isSome_iff]
            exact hh ▸ List.mem_map_of_mem Prod.fst he
          simp only [dictGet]
          rw [if_neg (fun hh => hek hh.symm)]
        · intro x hx
          rw [hstep]
          simp only [List.map_cons, List.mem_cons]
          rintro (rfl | hcontra)
          · exact hmem hx
          · exact ih3 x hx hcontra

/-- Witness for C7 on a concrete scan: raw prefixes a, b against previews
a, c — the only conversion task is b, and only preview c survives. -/
theorem identifyRaws_pairing_witness :
    (identifyRawsToConvert "d" [("a", ".nef"), ("b", ".cr2")]
      [("a", ".jpg"), ("c", ".jpg")]).1 = [("b", "d/b.cr2")] ∧
    (identifyRawsToConvert "d" [("a", ".nef"), ("b", ".cr2")]
      [("a", ".jpg"), ("c", ".jpg")]).2 = [("c", ".jpg")] := by
  have h := identifyRaws_pairing "d" [("a", ".nef"), ("b", ".cr2")]
    [("a", ".jpg"), ("c", ".jpg")] (by decide) (by decide)
  exact ⟨h.1.trans (by decide), h.2.1.trans (by decide)⟩

/-! ## Lemmas about the move loop -/

/-- One move-loop step never changes the folder set. -/
lemma applyMove_dirs (st : FS × ℕ) (r : MoveRec) :
    (applyMove st r).1.dirs = st.1.dirs := by
  unfold applyMove
  split_ifs <;> rfl

/-- The move loop never changes the folder set. -/
lemma foldl_applyMove_dirs (l : List MoveRec) (st : FS × ℕ) :
    (l.foldl applyMove st).1.dirs = st.1.dirs := by
  induction l generalizing st with
  | nil => rfl
  | cons hd t ih => rw [List.foldl_cons, ih, applyMove_dirs]

/-- One move-loop step preserves every file inside a folder. -/
lemma applyMove_sub_mem (st : FS × ℕ) (r : MoveRec) (f n : String)
    (h : FPath.sub f n ∈ st.1.files) :
    FPath.sub f n ∈ (applyMove st r).1.files := by
  unfold applyMove
  split_ifs with h1 h2
  · exact h
  · refine Finset.mem_insert.mpr (Or.inr ?_)
    refine Finset.mem_erase.mpr ⟨?_, h⟩
    simp [srcPath]
  · exact h

/-- The move loop preserves every file inside a folder. -/
lemma foldl_applyMove_sub_mem (l : List MoveRec) (st : FS × ℕ) (f n : String)
    (h : FPath.sub f n ∈ st.1.files) :
    FPath.sub f n ∈ (l.foldl applyMove st).1.files := by
  induction l generalizing st with
  | nil => exact h
  | cons hd t ih => exact ih (applyMove st hd) (applyMove_sub_mem st hd f n h)

/-- One move-loop step never creates a file at the directory root. -/
lemma applyMove_root_rev (st : FS × ℕ) (r : MoveRec) (n : String)
    (h : FPath.root n ∈ (applyMove st r).1.files) :
    FPath.root n ∈ st.1.files := by
  unfold applyMove at h
  split_ifs at h with h1 h2
  · exact h
  · rcases Finset.mem_insert.mp h with heq | hmem
    · exact absurd heq (by simp [dstPath])
    · exact (Finset.mem_erase.mp hmem).2
  · exact h

/-- The move loop never creates a file at the directory root. -/
lemma foldl_applyMove_root_rev (l : List MoveRec) (st : FS × ℕ) (n : String)
    (h : FPath.root n ∈ (l.foldl applyMove st).1.files) :
    FPath.root n ∈ st.1.files := by
  induction l generalizing st with
  | nil => exact h
  | cons hd t ih => exact applyMove_root_rev st hd n (ih (applyMove st hd) h)

/-- One move-loop step keeps a root file whose name differs from the
record's filename. -/
lemma applyMove_root_keep_ne (st : FS × ℕ) (r : MoveRec) (n : String)
    (hne : r.filename ≠ n) (h : FPath.root n ∈ st.1.files) :
    FPath.root n ∈ (applyMove st r).1.files := by
  unfold applyMove
  split_ifs with h1 h2
  · exact h
  · refine Finset.mem_insert.mpr (Or.inr ?_)
    refine Finset.mem_erase.mpr ⟨?_, h⟩
    simp [srcPath]
    exact fun hh => hne hh.symm
  · exact h

/-- If a record of the loop's list later finds its source still at the
root, then its destination file is present after the loop: the loop either
moved it or had found the destination (or lost the source) already. -/
lemma foldl_applyMove_dst (l : List MoveRec) (st : FS × ℕ) (rec : MoveRec)
    (hrec : rec ∈ l)
    (h : srcPath rec ∈ (l.foldl applyMove st).1.files) :
    dstPath rec ∈ (l.foldl applyMove st).1.files := by
  induction l generalizing st with
  | nil => exact absurd hrec (by simp)
  | cons hd t ih =>
      rw [List.mem_cons] at hrec
      rw [List.foldl_cons] at h ⊢
      rcases hrec with rfl | hrec
      · by_cases h1 : dstPath rec ∈ st.1.files
        · have hstep : applyMove st rec = st := by
            unfold applyMove
            rw [if_pos h1]
          rw [hstep] at h ⊢
          rcases hd : dstPath rec with _ | ⟨f, n⟩
          · exact absurd hd (by simp [dstPath])
          · exact hd ▸ foldl_applyMove_sub_mem t st f n (hd ▸ h1)
        · by_cases h2 : srcPath rec ∈ st.1.files
          · have hmem : dstPath rec ∈ (applyMove st rec).1.files := by
              unfold applyMove
              rw [if_neg h1, if_pos h2]
              exact Finset.mem_insert_self _ _
            rcases hd : dstPath rec with _ | ⟨f, n⟩
            · exact absurd hd (by simp [dstPath])
            · exact hd ▸ foldl_applyMove_sub_mem t _ f n (hd ▸ hmem)
          · have hstep : applyMove st rec = st := by
              unfold applyMove
              rw [if_neg h1, if_neg h2]
            rw [hstep] at h
            exact absurd (foldl_applyMove_root_rev t st rec.filename h) h2
      · exact ih (applyMove st hd) hrec h

/-- When every record of the list is already satisfied (destination present
or source gone), the move loop is the identity. -/
lemma foldl_applyMove_skip (l : List MoveRec) (st : FS × ℕ)
    (h : ∀ rec ∈ l, dstPath rec ∈ st.1.files ∨ srcPath rec ∉ st.1.files) :
    l.foldl applyMove st = st := by
  induction l with
  | nil => rfl
  | cons hd t ih =>
      have hstep : applyMove st hd = st := by
        unfold applyMove
        rcases h hd (List.mem_cons_self _ _) with h1 | h1
        · rw [if_pos h1]
        · by_cases h2 : dstPath hd ∈ st.1.files
          · rw [if_pos h2]
          · rw [if_neg h2, if_neg h1]
      rw [List.foldl_cons, hstep]
      exact ih fun rec hrec => h rec (List.mem_cons_of_mem hd hrec)

/-- A root file survives the move loop provided every record bearing its
filename already has its destination present. -/
lemma foldl_applyMove_root_keep (l : List MoveRec) (st : FS × ℕ) (n : String)
    (hn : FPath.root n ∈ st.1.files)
    (h : ∀ r ∈ l, r.filename = n → dstPath r ∈ st.1.files) :
    FPath.root n ∈ (l.foldl applyMove st).1.files := by
  induction l generalizing st with
  | nil => exact hn
  | cons hd t ih =>
      rw [List.foldl_cons]
      by_cases hfn : hd.filename = n
      · have hstep : applyMove st hd = st := by
          unfold applyMove
          rw [if_pos (h hd (List.mem_cons_self _ _) hfn)]
        rw [hstep]
        exact ih st hn fun r hr => h r (List.mem_cons_of_mem hd hr)
      · refine ih (applyMove st hd) (applyMove_root_keep_ne st hd n hfn hn)
          fun r hr hrn => ?_
        have hd' := h r (List.mem_cons_of_mem hd hr) hrn
        rcases he : dstPath r with _ | ⟨f, m⟩
        · exact absurd he (by simp [dstPath])
        · exact he ▸ applyMove_sub_mem st hd f m (he ▸ hd')

/-! ## Lemmas about the move selection -/

/-- Membership in `files_to_move`, decomposed. -/
lemma filesToMove_mem_elim {fs : FS} {ratings : List (String × ℤ)}
    {raw : List (String × String)} {rec : MoveRec}
    (h : rec ∈ filesToMove fs ratings raw) :
    ∃ pr ∈ ratings, ∃ ext, dictGet raw pr.1 = some ext ∧
      (pr.2 = 1 ∨ pr.2 = 2 ∨ pr.2 = 3) ∧
      FPath.root (pr.1 ++ ext) ∈ fs.files ∧
      rec = ⟨pr.1 ++ ext, pr.2, ratingFolderName pr.2⟩ := by
  rw [filesToMove, List.mem_filterMap] at h
  obtain ⟨pr, hpr, hf⟩ := h
  by_cases h123 : pr.2 = (1 : ℤ) ∨ pr.2 = (2 : ℤ) ∨ pr.2 = (3 : ℤ)
  · rw [if_pos h123] at hf
    split at hf
    · rename_i ext hext
      split_ifs at hf with hex
      · exact ⟨pr, hpr, ext, hext, h123, hex, (Option.some_inj.mp hf).symm⟩
    · exact absurd hf (by simp)
  · rw [if_neg h123] at hf
    exact absurd hf (by simp)

/-- Membership in `files_to_move`, built. -/
lemma filesToMove_mem_intro {fs : FS} {ratings : List (String × ℤ)}
    {raw : List (String × String)} {pr : String × ℤ} (hpr : pr ∈ ratings)
    {ext : String} (hext : dictGet raw pr.1 = some ext)
    (h123 : pr.2 = 1 ∨ pr.2 = 2 ∨ pr.2 = 3)
    (hex : FPath.root (pr.1 ++ ext) ∈ fs.files) :
    (⟨pr.1 ++ ext, pr.2, ratingFolderName pr.2⟩ : MoveRec) ∈
      filesToMove fs ratings raw := by
  rw [filesToMove, List.mem_filterMap]
  refine ⟨pr, hpr, ?_⟩
  rw [if_pos h123, hext]
  simp [hex]

/-- A selected record's source file exists in the selecting state. -/
lemma filesToMove_src_mem {fs : FS} {ratings : List (String × ℤ)}
    {raw : List (String × String)} {rec : MoveRec}
    (h : rec ∈ filesToMove fs ratings raw) : srcPath rec ∈ fs.files := by
  obtain ⟨pr, _, ext, _, _, hex, rfl⟩ := filesToMove_mem_elim h
  exact hex

/-- The move step with an empty selection does nothing. -/
lemma moveStep_empty (dir : String) (fs : FS) (ratings : List (String × ℤ))
    (raw : List (String × String)) (h : filesToMove fs ratings raw = []) :
    moveStep dir fs ratings raw = ⟨fs, 0, none⟩ := by
  rw [moveStep, h]
  rfl

/-- The move step with a nonempty selection, unfolded. -/
lemma moveStep_nonempty (dir : String) (fs : FS) (ratings : List (String × ℤ))
    (raw : List (String × String)) (h : filesToMove fs ratings raw ≠ []) :
    moveStep dir fs ratings raw =
      ⟨⟨insert manifestPath
          ((filesToMove fs ratings raw).foldl applyMove
            (⟨fs.files, fs.dirs ∪
              ((filesToMove fs ratings raw).map (·.folder)).toFinset⟩, 0)).1.files,
        ((filesToMove fs ratings raw).foldl applyMove
            (⟨fs.files, fs.dirs ∪
              ((filesToMove fs ratings raw).map (·.folder)).toFinset⟩, 0)).1.dirs⟩,
        ((filesToMove fs ratings raw).foldl applyMove
            (⟨fs.files, fs.dirs ∪
              ((filesToMove fs ratings raw).map (·.folder)).toFinset⟩, 0)).2,
        some ⟨"1.0", "CLI-0.1.0", dir, filesToMove fs ratings raw,
          ((filesToMove fs ratings raw).foldl applyMove
            (⟨fs.files, fs.dirs ∪
              ((filesToMove fs ratings raw).map (·.folder)).toFinset⟩, 0)).2⟩⟩ := by
  rw [moveStep, if_neg (by simpa [List.isEmpty_iff] using h)]

/-- Every root file of the post-move state is the manifest or was already
present. -/
lemma moveStep_root_files (dir : String) (fs : FS)
    (ratings : List (String × ℤ)) (raw : List (String × String)) (n : String)
    (h : FPath.root n ∈ (moveStep dir fs ratings raw).fs.files) :
    n = manifestName ∨ FPath.root n ∈ fs.files := by
  by_cases hftm : filesToMove fs ratings raw = []
  · rw [moveStep_empty dir fs ratings raw hftm] at h
    exact Or.inr h
  · rw [moveStep_nonempty dir fs ratings raw hftm] at h
    simp only at h
    rcases Finset.mem_insert.mp h with heq | hmem
    · exact Or.inl (by simpa [manifestPath] using heq)
    · exact Or.inr (foldl_applyMove_root_rev _ _ _ hmem)

/-- The move step never loses a file inside a folder. -/
lemma moveStep_sub_mem (dir : String) (fs : FS)
    (ratings : List (String × ℤ)) (raw : List (String × String))
    (f n : String) (h : FPath.sub f n ∈ fs.files) :
    FPath.sub f n ∈ (moveStep dir fs ratings raw).fs.files := by
  by_cases hftm : filesToMove fs ratings raw = []
  · rw [moveStep_empty dir fs ratings raw hftm]
    exact h
  · rw [moveStep_nonempty dir fs ratings raw hftm]
    simp only
    exact Finset.mem_insert.mpr (Or.inr (foldl_applyMove_sub_mem _ _ f n h))

/-- Whatever qualifies for moving after one move step already qualified
before it (no photo file is named like the manifest). -/
lemma filesToMove_subset_second (dir : String) (fs : FS)
    (ratings : List (String × ℤ)) (raw : List (String × String))
    (hname : ∀ pr ∈ ratings, ∀ ext, dictGet raw pr.1 = some ext →
      pr.1 ++ ext ≠ manifestName) :
    ∀ rec ∈ filesToMove (moveStep dir fs ratings raw).fs ratings raw,
      rec ∈ filesToMove fs ratings raw := by
  intro rec h
  obtain ⟨pr, hpr, ext, hext, h123, hex, rfl⟩ := filesToMove_mem_elim h
  rcases moveStep_root_files dir fs ratings raw _ hex with heq | hmem
  · exact absurd heq (hname pr hpr ext hext)
  · exact filesToMove_mem_intro hpr hext h123 hmem

/-- After one move step, every record that still qualifies already has its
destination file in place. -/
lemma second_run_dst (dir : String) (fs : FS) (ratings : List (String × ℤ))
    (raw : List (String × String))
    (hname : ∀ pr ∈ ratings, ∀ ext, dictGet raw pr.1 = some ext →
      pr.1 ++ ext ≠ manifestName) :
    ∀ rec ∈ filesToMove (moveStep dir fs ratings raw).fs ratings raw,
      dstPath rec ∈ (moveStep dir fs ratings raw).fs.files := by
  intro rec h2
  have h1 : rec ∈ filesToMove fs ratings raw :=
    filesToMove_subset_second dir fs ratings raw hname rec h2
  have hftm1 : filesToMove fs ratings raw ≠ [] := by
    intro hnil
    rw [hnil] at h1
    exact absurd h1 (List.not_mem_nil _)
  have hne : rec.filename ≠ manifestName := by
    obtain ⟨pr, hpr, ext, hext, _, _, rfl⟩ := filesToMove_mem_elim h1
    exact hname pr hpr ext hext
  have hsrc2 : srcPath rec ∈ (moveStep dir fs ratings raw).fs.files :=
    filesToMove_src_mem h2
  rw [moveStep_nonempty dir fs ratings raw hftm1] at hsrc2 ⊢
  simp only at hsrc2 ⊢
  have hsrc2' : srcPath rec ∈
      ((filesToMove fs ratings raw).foldl applyMove
        (⟨fs.files, fs.dirs ∪
          ((filesToMove fs ratings raw).map (·.folder)).toFinset⟩, 0)).1.files := by
    rcases Finset.mem_insert.mp hsrc2 with heq | hm
    · exact absurd (by simpa [srcPath, manifestPath] using heq) hne
    · exact hm
  exact Finset.mem_insert.mpr (Or.inr (foldl_applyMove_dst _ _ rec h1 hsrc2'))

/-! ## Claim theorems: idempotent file organization -/

/-- Claim C4 (amended): a record whose destination file already exists (and
whose filename is unambiguous in the selection) is skipped — its source
stays in place and the destination file is untouched; running the move step
a second time performs zero moves and leaves the directory state unchanged;
the second run writes a manifest (whose `total_moved` is 0) only when some
qualifying file remained at the root, and writes no manifest at all when
the first run moved every qualifying file. -/
theorem moveStep_idempotent (dir : String) (fs : FS)
    (ratings : List (String × ℤ)) (raw : List (String × String))
    (hname : ∀ pr ∈ ratings, ∀ ext, dictGet raw pr.1 = some ext →
      pr.1 ++ ext ≠ manifestName) :
    (∀ rec ∈ filesToMove fs ratings raw,
      dstPath rec ∈ fs.files →
      (∀ rec' ∈ filesToMove fs ratings raw,
        rec'.filename = rec.filename → rec' = rec) →
      srcPath rec ∈ (moveStep dir fs ratings raw).fs.files ∧
        dstPath rec ∈ (moveStep dir fs ratings raw).fs.files) ∧
    (moveStep dir (moveStep dir fs ratings raw).fs ratings raw).movedCount = 0 ∧
    (moveStep dir (moveStep dir fs ratings raw).fs ratings raw).fs =
      (moveStep dir fs ratings raw).fs ∧
    ((moveStep dir (moveStep dir fs ratings raw).fs ratings raw).manifest = none ↔
      filesToMove (moveStep dir fs ratings raw).fs ratings raw = []) ∧
    (∀ m, (moveStep dir (moveStep dir fs ratings raw).fs ratings raw).manifest =
      some m → m.total_moved = 0) := by
  refine ⟨?_, ?_⟩
  · intro rec hrec hdst huniq
    have hftm1 : filesToMove fs ratings raw ≠ [] := by
      intro hnil
      rw [hnil] at hrec
      exact absurd hrec (List.not_mem_nil _)
    rw [moveStep_nonempty dir fs ratings raw hftm1]
    simp only
    constructor
    · refine Finset.mem_insert.mpr (Or.inr ?_)
      refine foldl_applyMove_root_keep _ _ rec.filename
        (filesToMove_src_mem hrec) ?_
      intro r hr hrn
      rw [huniq r hr hrn]
      exact hdst
    · refine Finset.mem_insert.mpr (Or.inr ?_)
      exact foldl_applyMove_sub_mem _ _ rec.folder rec.filename hdst
  · by_cases hftm1 : filesToMove fs ratings raw = []
    · have hfs1 : (moveStep dir fs ratings raw).fs = fs := by
        rw [moveStep_empty dir fs ratings raw hftm1]
      rw [hfs1, moveStep_empty dir fs ratings raw hftm1]
      exact ⟨rfl, rfl, by simp [hftm1], fun m hm => absurd hm (by simp)⟩
    · by_cases hftm2 :
          filesToMove (moveStep dir fs ratings raw).fs ratings raw = []
      · rw [moveStep_empty dir _ ratings raw hftm2]
        exact ⟨rfl, rfl, by simp [hftm2], fun m hm => absurd hm (by simp)⟩
      · have hdst2 := second_run_dst dir fs ratings raw hname
        have hsub2 := filesToMove_subset_second dir fs ratings raw hname
        have hmanifest : manifestPath ∈ (moveStep dir fs ratings raw).fs.files := by
          rw [moveStep_nonempty dir fs ratings raw hftm1]
          exact Finset.mem_insert_self _ _
        have hdirs1 : (moveStep dir fs ratings raw).fs.dirs =
            fs.dirs ∪ ((filesToMove fs ratings raw).map (·.folder)).toFinset := by
          rw [moveStep_nonempty dir fs ratings raw hftm1]
          simp only
          rw [foldl_applyMove_dirs]
        have hdirs_sub :
            (((filesToMove (moveStep dir fs ratings raw).fs ratings raw).map
              (·.folder)).toFinset : Finset String) ⊆
              (moveStep dir fs ratings raw).fs.dirs := by
          intro f hf
          rw [List.mem_toFinset, List.mem_map] at hf
          obtain ⟨rec, hrec, rfl⟩ := hf
          rw [hdirs1]
          refine Finset.mem_union_right _ ?_
          rw [List.mem_toFinset, List.mem_map]
          exact ⟨rec, hsub2 rec hrec, rfl⟩
        have hskip :
            (filesToMove (moveStep dir fs ratings raw).fs ratings raw).foldl
              applyMove
              (⟨(moveStep dir fs ratings raw).fs.files,
                (moveStep dir fs ratings raw).fs.dirs ∪
                  ((filesToMove (moveStep dir fs ratings raw).fs ratings raw).map
                    (·.folder)).toFinset⟩, 0) =
            (⟨(moveStep dir fs ratings raw).fs.files,
              (moveStep dir fs ratings raw).fs.dirs ∪
                ((filesToMove (moveStep dir fs ratings raw).fs ratings raw).map
                  (·.folder)).toFinset⟩, 0) :=
          foldl_applyMove_skip _ _ (fun rec hrec => Or.inl (hdst2 rec hrec))
        rw [moveStep_nonempty dir _ ratings raw hftm2]
        simp only
        rw [hskip]
        refine ⟨rfl, ?_, by simp [hftm2], fun m hm => by
          rw [← Option.some_inj.mp hm]⟩
        simp only
        rw [Finset.insert_eq_self.mpr hmanifest,
          Finset.union_eq_left.mpr hdirs_sub]

/-- Witness for C4: one photo, moved by the first run; the second run over
the resulting directory state performs zero moves. -/
theorem moveStep_idempotent_witness :
    (moveStep "d" (moveStep "d" ⟨{FPath.root "a.nef"}, ∅⟩
      [("a", 3)] [("a", ".nef")]).fs [("a", 3)] [("a", ".nef")]).movedCount = 0 :=
  (moveStep_idempotent "d" ⟨{FPath.root "a.nef"}, ∅⟩ [("a", 3)] [("a", ".nef")]
    (by
      intro pr hpr ext hext
      simp only [List.mem_singleton] at hpr
      subst hpr
      simp only [dictGet, if_pos] at hext
      rw [← Option.some_inj.mp hext]
      decide)).2.1

/-- Counterexample for C4 as frozen: when the first run moves every
qualifying file, the second invocation finds nothing to move and writes no
manifest at all — so it cannot record `total_moved = 0` in a manifest. -/
theorem moveStep_second_run_writes_no_manifest :
    (moveStep "d" ⟨{FPath.root "a.nef"}, ∅⟩ [("a", 3)] [("a", ".nef")]).movedCount = 1 ∧
    (moveStep "d" ⟨{FPath.root "a.nef"}, ∅⟩ [("a", 3)] [("a", ".nef")]).manifest.isSome ∧
    (moveStep "d" (moveStep "d" ⟨{FPath.root "a.nef"}, ∅⟩
      [("a", 3)] [("a", ".nef")]).fs [("a", 3)] [("a", ".nef")]).manifest = none := by
  refine ⟨?_, ?_, ?_⟩ <;> decide

/-- Claim C10: the move step writes a manifest exactly when at least one
file qualifies for moving, and when no rated file in 1..3 has its raw file
on disk it returns with the directory state untouched, no folder created
and no manifest written. -/
theorem moveStep_nothing_qualifies (dir : String) (fs : FS)
    (ratings : List (String × ℤ)) (raw : List (String × String)) :
    ((moveStep dir fs ratings raw).manifest.isSome ↔
      filesToMove fs ratings raw ≠ []) ∧
    ((∀ pr ∈ ratings, (pr.2 = 1 ∨ pr.2 = 2 ∨ pr.2 = 3) →
        ∀ ext, dictGet raw pr.1 = some ext →
          FPath.root (pr.1 ++ ext) ∉ fs.files) →
      moveStep dir fs ratings raw = ⟨fs, 0, none⟩) := by
  constructor
  · by_cases h : filesToMove fs ratings raw = []
    · rw [moveStep_empty dir fs ratings raw h]
      simp [h]
    · rw [moveStep_nonempty dir fs ratings raw h]
      simp [h]
  · intro h
    have hftm : filesToMove fs ratings raw = [] := by
      rcases hl : filesToMove fs ratings raw with _ | ⟨rec, rest⟩
      · rfl
      · have hrec : rec ∈ filesToMove fs ratings raw := by
          rw [hl]
          exact List.mem_cons_self _ _
        obtain ⟨pr, hpr, ext, hext, h123, hex, rfl⟩ := filesToMove_mem_elim hrec
        exact absurd hex (h pr hpr h123 ext hext)
    exact moveStep_empty dir fs ratings raw hftm

/-- Witness for C10: a rated photo whose raw file is absent from disk — the
move step returns the state unchanged with no manifest. -/
theorem moveStep_nothing_qualifies_witness :
    moveStep "d" ⟨∅, ∅⟩ [("a", 3)] [("a", ".nef")] = ⟨⟨∅, ∅⟩, 0, none⟩ :=
  (moveStep_nothing_qualifies "d" ⟨∅, ∅⟩ [("a", 3)] [("a", ".nef")]).2
    (by
      intro pr hpr h123 ext hext
      exact Finset.not_mem_empty _)

/-! ## Lemmas about the run statistics -/

/-- Effect of one `_update_stats` call on a star bucket. -/
lemma Stats.starCount_update (s : Stats) (a r : ℤ)
    (hr : r = 1 ∨ r = 2 ∨ r = 3) :
    (s.update a).starCount r = s.starCount r + (if a = r then 1 else 0) := by
  rcases hr with rfl | rfl | rfl <;>
    simp only [Stats.update, Stats.starCount] <;>
    split_ifs <;> simp_all

/-- A fold of `_update_stats` counts each star bucket. -/
lemma Stats.starCount_foldl (l : List ℤ) (s : Stats) (r : ℤ)
    (hr : r = 1 ∨ r = 2 ∨ r = 3) :
    (l.foldl Stats.update s).starCount r =
      s.starCount r + l.countP (fun x => decide (x = r)) := by
  induction l generalizing s with
  | nil => simp
  | cons a t ih =>
      rw [List.foldl_cons, ih (s.update a), Stats.starCount_update s a r hr,
        List.countP_cons]
      by_cases ha : a = r
      · simp [ha]
        omega
      · simp [ha]

/-- The run statistics bucket for rating `r` counts exactly the photos the
CLI rated `r`. -/
lemma runStats_starCount (cfg : CLIConfig) (ui : UISettings)
    (photos : List PhotoObs) (r : ℤ) (hr : r = 1 ∨ r = 2 ∨ r = 3) :
    (runStats cfg ui photos).starCount r =
      photos.countP (fun ph => decide (photoRating cfg ui ph = r)) := by
  have hinit : Stats.init.starCount r = 0 := by
    rcases hr with rfl | rfl | rfl <;> rfl
  rw [runStats, ← List.foldl_map (photoRating cfg ui) Stats.update photos
    Stats.init, Stats.starCount_foldl _ _ r hr, hinit, Nat.zero_add,
    List.countP_map]
  rfl

/-- Counting through a `filterMap`. -/
lemma countP_filterMap {α β : Type} (h : α → Option β) (p : β → Bool)
    (l : List α) :
    (l.filterMap h).countP p =
      l.countP (fun x => (((h x).map p).getD false)) := by
  induction l with
  | nil => rfl
  | cons a t ih =>
      rw [List.filterMap_cons]
      rcases ha : h a with _ | b
      · rw [List.countP_cons, ha]
        simp [ih]
      · rw [List.countP_cons, List.countP_cons, ha, ih]
        simp

/-- For ratings 1..3, the manifest-bound selection over the recorded
`file_ratings` counts exactly the photos rated `r` whose raw file is on
disk. -/
lemma filesToMove_fileRatings_countP (cfg : CLIConfig) (ui : UISettings)
    (fs : FS) (raw : List (String × String)) (photos : List PhotoObs)
    (r : ℤ) (hr : r = 1 ∨ r = 2 ∨ r = 3) :
    (filesToMove fs (fileRatings cfg ui fs raw photos) raw).countP
        (fun rec => decide (rec.rating = r)) =
      photos.countP
        (fun ph => rawOnDisk fs raw ph && decide (photoRating cfg ui ph = r)) := by
  rw [filesToMove, fileRatings, List.filterMap_filterMap, countP_filterMap]
  refine List.countP_congr fun ph _ => ?_
  by_cases hrd : rawOnDisk fs raw ph
  · rw [if_pos hrd, Option.some_bind]
    obtain ⟨ext, hext, hex⟩ : ∃ ext, dictGet raw ph.pfx = some ext ∧
        FPath.root (ph.pfx ++ ext) ∈ fs.files := by
      unfold rawOnDisk at hrd
      rcases he : dictGet raw ph.pfx with _ | ext
      · rw [he] at hrd
        exact absurd hrd (by simp)
      · rw [he] at hrd
        exact ⟨ext, rfl, by simpa using hrd⟩
    by_cases h123 : photoRating cfg ui ph = (1 : ℤ) ∨
        photoRating cfg ui ph = (2 : ℤ) ∨ photoRating cfg ui ph = (3 : ℤ)
    · rw [if_pos h123, hext]
      simp only [hex, if_pos, hrd]
      simp
    · rw [if_neg h123]
      have hne : photoRating cfg ui ph ≠ r := by
        intro hh
        rcases hr with rfl | rfl | rfl
        · exact h123 (Or.inl hh)
        · exact h123 (Or.inr (Or.inl hh))
        · exact h123 (Or.inr (Or.inr hh))
      simp [hne]
  · rw [if_neg hrd]
    simp only [Option.none_bind]
    simp [Bool.eq_false_iff.mpr hrd]

/-! ## Claim theorems: manifest counts versus run statistics -/

/-- Counterexample for C8 as frozen: a photo rated 2 without a raw
counterpart is counted in `RunStatistics` (`star_2 = 1`), yet the written
manifest contains zero rating-2 records. -/
theorem manifest_misses_rawless_photo :
    ((moveStep "d" ⟨{FPath.root "b.nef"}, ∅⟩
        (fileRatings ⟨0.5, 6500, 4.3, 55, 25⟩ ⟨7500, 4.8⟩
          ⟨{FPath.root "b.nef"}, ∅⟩ [("b", ".nef")]
          [⟨"a", true, false, 0.8, 8000, none, none⟩,
            ⟨"b", true, true, 0.8, 8000, none, none⟩])
        [("b", ".nef")]).manifest.map
      (fun m => m.files.countP (fun rec => decide (rec.rating = 2)))) =
      some 0 ∧
    (runStats ⟨0.5, 6500, 4.3, 55, 25⟩ ⟨7500, 4.8⟩
      [⟨"a", true, false, 0.8, 8000, none, none⟩,
        ⟨"b", true, true, 0.8, 8000, none, none⟩]).star_2 = 1 := by
  have hfr : fileRatings ⟨0.5, 6500, 4.3, 55, 25⟩ ⟨7500, 4.8⟩
      ⟨{FPath.root "b.nef"}, ∅⟩ [("b", ".nef")]
      [⟨"a", true, false, 0.8, 8000, none, none⟩,
        ⟨"b", true, true, 0.8, 8000, none, none⟩] = [("b", 3)] := by
    norm_num [fileRatings, rawOnDisk, dictGet, photoRating,
      CLIProcessor.calculate_rating, CLIProcessor.afterBrisque,
      CLIProcessor.afterNima, nimaOk, List.filterMap_cons]
    decide
  constructor
  · rw [hfr]
    decide
  · norm_num [runStats, photoRating, CLIProcessor.calculate_rating,
      CLIProcessor.afterBrisque, CLIProcessor.afterNima, nimaOk,
      Stats.update, Stats.init]

/-- Claim C8 (amended): for each rating r in 1..3, the written manifest's
rating-r record count equals the number of photos rated r whose raw file
was on disk; it equals the `RunStatistics` bucket for r exactly when every
photo rated r had its raw file present — photos rated r without a raw
counterpart are counted in the statistics but never appear in the
manifest. -/
theorem manifest_counts_match_stats (dir : String) (cfg : CLIConfig)
    (ui : UISettings) (fs : FS) (raw : List (String × String))
    (photos : List PhotoObs) (r : ℤ) (m : Manifest)
    (hr : r = 1 ∨ r = 2 ∨ r = 3)
    (hnd : (photos.map (·.pfx)).Nodup)
    (hm : (moveStep dir fs (fileRatings cfg ui fs raw photos) raw).manifest =
      some m) :
    m.files.countP (fun rec => decide (rec.rating = r)) =
      photos.countP
        (fun ph => rawOnDisk fs raw ph && decide (photoRating cfg ui ph = r)) ∧
    ((∀ ph ∈ photos, photoRating cfg ui ph = r → rawOnDisk fs raw ph) →
      m.files.countP (fun rec => decide (rec.rating = r)) =
        (runStats cfg ui photos).starCount r) := by
  have hfiles : m.files = filesToMove fs (fileRatings cfg ui fs raw photos) raw := by
    by_cases hftm : filesToMove fs (fileRatings cfg ui fs raw photos) raw = []
    · rw [moveStep_empty dir fs _ raw hftm] at hm
      exact absurd hm (by simp)
    · rw [moveStep_nonempty dir fs _ raw hftm] at hm
      rw [← Option.some_inj.mp hm]
  constructor
  · rw [hfiles]
    exact filesToMove_fileRatings_countP cfg ui fs raw photos r hr
  · intro hall
    rw [hfiles, filesToMove_fileRatings_countP cfg ui fs raw photos r hr,
      runStats_starCount cfg ui photos r hr]
    refine List.countP_congr fun ph hph => ?_
    by_cases hpr : photoRating cfg ui ph = r
    · simp [hpr, hall ph hph hpr]
    · simp [hpr]

/-- Witness for C8: a single selected photo with its raw on disk — the
manifest holds exactly one rating-3 record, matching the statistics
bucket. -/
theorem manifest_counts_match_stats_witness :
    ([(⟨"b.nef", 3, "3星_优选"⟩ : MoveRec)].countP
        (fun rec => decide (rec.rating = 3))) =
      (runStats ⟨0.5, 6500, 4.3, 55, 25⟩ ⟨7500, 4.8⟩
        [⟨"b", true, true, 0.8, 8000, none, none⟩]).starCount 3 := by
  have h := manifest_counts_match_stats "d" ⟨0.5, 6500, 4.3, 55, 25⟩
    ⟨7500, 4.8⟩ ⟨{FPath.root "b.nef"}, ∅⟩ [("b", ".nef")]
    [⟨"b", true, true, 0.8, 8000, none, none⟩] 3
    ⟨"1.0", "CLI-0.1.0", "d", [⟨"b.nef", 3, "3星_优选"⟩], 1⟩
    (by norm_num) (by simp) (by decide)
  exact h.2 (by
    intro ph hph _
    simp only [List.mem_singleton] at hph
    subst hph
    decide)
